import Mathlib

set_option maxRecDepth 8000

/-!
Shallow embedding of the cyclometry/arduino firmware sources:

* `src/unnamed/part_000`            — the batched-telemetry variant ("Batched"),
* `src/nrf52_hall/src/main.cpp`     — the simple per-tick variant ("Simple"),
* `src/nrf52_with_hall/nrf52_with_hall.ino` — the rename-capable variant ("Extended").

Machine integers are modelled as `Nat`/`Int` with explicit reduction modulo
`2^32` where the C code performs 32-bit unsigned arithmetic (the target is a
32-bit ARM Cortex-M4: `unsigned int`, `unsigned long`, `size_t` and pointers
are all 32 bits wide).  The 1024-byte `outputBuffer` is a `List Char` of
length 1024; every byte store the code attempts (including stores whose
address falls outside the buffer) is recorded in an access log, and a store
whose offset is outside the region leaves the modelled region unchanged.
-/

/-- 2^32: modulus of `unsigned int` / `unsigned long` / `size_t` on the target. -/
def U32 : Nat := 4294967296

/-- 32-bit unsigned subtraction `a - b` for `a b < U32` (C unsigned wraparound). -/
def u32sub (a b : Nat) : Nat := (a + (U32 - b % U32)) % U32

/-- The NUL byte. -/
def nul : Char := Char.ofNat 0

/-- One decimal digit as a character. -/
def digitChar (n : Nat) : Char := Char.ofNat (48 + n)

/-- Fuel-driven decimal printer (fuel-structural so the kernel can evaluate it). -/
def natToCharsAux : Nat → Nat → List Char → List Char
  | 0, _, acc => acc
  | fuel + 1, n, acc =>
      if n < 10 then digitChar n :: acc
      else natToCharsAux fuel (n / 10) (digitChar (n % 10) :: acc)

/-- Decimal representation of a natural number, as `printf` `"%u"`/`"%lu"` prints it. -/
def natToChars (n : Nat) : List Char := natToCharsAux (n + 1) n []

/-- Decimal representation of an integer, as `printf` `"%i"` prints it. -/
def intToChars (i : Int) : List Char :=
  if i < 0 then '-' :: natToChars i.natAbs else natToChars i.natAbs

/-- Reinterpret a 32-bit unsigned value as a signed `int` (what passing an
`unsigned long` to a `"%i"` conversion prints on this 32-bit target). -/
def toSigned32 (n : Nat) : Int :=
  if n % U32 < 2147483648 then ((n % U32 : Nat) : Int)
  else ((n % U32 : Nat) : Int) - ((U32 : Nat) : Int)

/-! ## CommandChannel: Arduino `String` accumulation and `toInt` decoding

`inputString` is modelled as a `List Char`.  Each inbound byte is appended via
`String::operator+=(uint8_t)`, which concatenates the *decimal representation*
of the byte value (Arduino `WString` `concat(unsigned char)` uses `itoa`).
Decoding is `inputString.substring(0, 2).toInt() - 48`; `String::toInt` is C
`atol`: skip whitespace, optional sign, leading decimal digits, 0 if none. -/

/-- `String::operator+=(uint8_t ch)`: appends the decimal digits of the byte value. -/
def feedByte (input : List Char) (ch : Nat) : List Char :=
  input ++ natToChars (ch % 256)

/-- Characters accepted by C `isspace` in the default locale. -/
def isSpaceChar (c : Char) : Bool :=
  c = ' ' || c = '\t' || c = '\n' || c = '\x0b' || c = '\x0c' || c = '\r'

/-- ASCII decimal digit test. -/
def isDigitChar (c : Char) : Bool := 48 ≤ c.toNat && c.toNat ≤ 57

/-- Accumulate leading decimal digits, stopping at the first non-digit. -/
def digitsToNat : List Char → Nat → Nat
  | [], acc => acc
  | c :: rest, acc =>
      if isDigitChar c then digitsToNat rest (acc * 10 + (c.toNat - 48)) else acc

/-- C `atol` (hence Arduino `String::toInt`): optional whitespace, optional
sign, leading digits.  Our decoder only ever applies it to 2-character
substrings, so `long` overflow cannot occur. -/
def atol (s : List Char) : Int :=
  match s.dropWhile isSpaceChar with
  | '-' :: rest => - Int.ofNat (digitsToNat rest 0)
  | '+' :: rest => Int.ofNat (digitsToNat rest 0)
  | t => Int.ofNat (digitsToNat t 0)

/-- `inputString.substring(0, 2).toInt() - 48`, the action-code computation
shared by all three variants (`String::substring` clamps to the length). -/
def actionCode (input : List Char) : Int := atol (input.take 2) - 48

/-- Recording state enum (`recordingState` in all three sources). -/
inductive RecState
  | stopped
  | recording
deriving DecidableEq, Repr

/-- Decoded command, the spec's `Command` variant. -/
inductive Command
  | stop
  | start
  | name (payload : List Char)
deriving DecidableEq, Repr

/-- Controller state of the Simple and Batched variants
(`currentRecordingState`, `elapsedStartMillis`). -/
structure SimpleCtrl where
  recState : RecState
  elapsedStart : Nat
deriving DecidableEq, Repr

/-- Controller state of the Extended variant (adds the `activity` name). -/
structure ExtCtrl where
  recState : RecState
  elapsedStart : Nat
  activity : List Char
deriving DecidableEq, Repr

/-- Initial controller state of the Simple/Batched variants. -/
def simpleInit : SimpleCtrl := ⟨.stopped, 0⟩

/-- Initial controller state of the Extended variant (`String activity = "unnamed"`). -/
def extInit : ExtCtrl := ⟨.stopped, 0, "unnamed".toList⟩

/-- The decode half of the command-processing section of the Simple/Batched
`loop` (codes `0 = STOP_RECORDING`, `1 = START_RECORDING`), extracted as the
spec's `CommandChannel.try_decode`.  Branch order follows the source. -/
def tryDecodeSimple (input : List Char) : Option Command :=
  if input.length = 0 then none
  else
    let code := actionCode input
    if code = 0 then some .stop
    else if code = 1 then some .start
    else none

/-- The decode half of the Extended `loop` (codes `0 = STOP_RECORDING`,
`1 = NAME_ACTIVITY`, `2 = START_RECORDING`; the `NAME_ACTIVITY` payload is
`inputString.substring(2)`).  Branch order follows the source. -/
def tryDecodeExt (input : List Char) : Option Command :=
  if input.length = 0 then none
  else
    let code := actionCode input
    if code = 0 then some .stop
    else if code = 2 then some .start
    else if code = 1 then some (.name (input.drop 2))
    else none

/-- Command-processing section of the Simple/Batched `loop`
(`main.cpp` lines 147-163, `part_000` lines 167-183): when `inputString` is
non-empty, dispatch on the action code, then clear `inputString`.
Returns the new controller state and the new `inputString`. -/
def simpleCommandStep (now : Nat) (input : List Char) (s : SimpleCtrl) :
    SimpleCtrl × List Char :=
  if 0 < input.length then
    let code := actionCode input
    let s' :=
      if code = 0 then { s with recState := .stopped }
      else if code = 1 then { s with recState := .recording, elapsedStart := now }
      else s
    (s', [])
  else (s, input)

/-- Command-processing section of the Extended `loop`
(`nrf52_with_hall.ino` lines 129-153): dispatch order is `STOP_RECORDING`,
`START_RECORDING`, `NAME_ACTIVITY`; then `inputString` is cleared. -/
def extCommandStep (now : Nat) (input : List Char) (s : ExtCtrl) :
    ExtCtrl × List Char :=
  if 0 < input.length then
    let code := actionCode input
    let s' :=
      if code = 0 then { s with recState := .stopped }
      else if code = 2 then { s with recState := .recording, elapsedStart := now }
      else if code = 1 then { s with activity := input.drop 2 }
      else s
    (s', [])
  else (s, input)

/-! ## TelemetryBatcher: the Batched variant's `outputBuffer` machinery

`char outputBuffer[1024]`, `char *endOfBuffer = outputBuffer`,
`unsigned int remainingSpace = sizeof(outputBuffer)`,
`unsigned long lastSendTimeMillis = 0` (`part_000` lines 136-152).

The 1024-byte region is a `List Char`; `cursor` is the pointer offset
`endOfBuffer - outputBuffer`.  `writes` logs every byte store the code
attempts, as `(offset from outputBuffer, value)` pairs, newest first; a store
at an offset at or beyond 1024 is outside the array (out of bounds) and
leaves the modelled region unchanged. -/

/-- Capacity of `outputBuffer`. -/
def BUFSZ : Nat := 1024

/-- State of the Batched variant's frame buffer and flush timer. -/
structure Batcher where
  region : List Char
  writes : List (Nat × Char)
  cursor : Nat
  remaining : Nat
  lastSend : Nat
deriving DecidableEq, Repr

/-- The device state right after power-on (globals zero-initialised) or after
`resetOutputBuffer`. -/
def initialBatcher : Batcher :=
  { region := List.replicate BUFSZ nul
    writes := []
    cursor := 0
    remaining := BUFSZ
    lastSend := 0 }

/-- One byte store at offset `i` from `outputBuffer`: logged always, effective
on the region only when the offset is inside the array. -/
def storeChar (i : Nat) (c : Char) (b : Batcher) : Batcher :=
  { b with region := b.region.set i c, writes := (i, c) :: b.writes }

/-- Consecutive byte stores starting at offset `base`. -/
def storeList (base : Nat) (cs : List Char) (b : Batcher) : Batcher :=
  match cs with
  | [] => b
  | c :: rest => storeList (base + 1) rest (storeChar base c b)

/-- `snprintf(dst, size, ...)` producing the character sequence `F`:
with `size = 0` nothing is written; otherwise the first
`min F.length (size - 1)` characters are stored at `dst`, followed by a NUL
terminator.  (The return value, `F.length` regardless of truncation, is
handled at the call site.) -/
def snprintfWrite (dst size : Nat) (F : List Char) (b : Batcher) : Batcher :=
  if size = 0 then b
  else
    let k := min F.length (size - 1)
    storeChar (dst + k) nul (storeList dst (F.take k) b)

/-- `int metricTypeCode = 1` (`part_000` line 134). -/
def metricTypeCode : Int := 1

/-- The record text `snprintf(..., "%i:%lu:%lu;", metricTypeCode, elapsed,
hall)` produces; `elapsed` and `hall` are the 32-bit unsigned argument
values. -/
def fmtRecord (elapsed hall : Nat) : List Char :=
  intToChars metricTypeCode ++
    ':' :: (natToChars elapsed ++ ':' :: (natToChars hall ++ [';']))

/-- The append step of the Batched `loop` (`part_000` lines 193-208):
`snprintf` the record at `endOfBuffer` limited by `remainingSpace`; if the
returned count is positive, advance `endOfBuffer` and decrement
`remainingSpace` (32-bit unsigned) by that count; otherwise print a
diagnostic and `exit(1)`.  The boolean is `true` exactly when the
diagnostic-and-exit branch runs. -/
def appendRecord (elapsed hall : Nat) (b : Batcher) : Batcher × Bool :=
  let F := fmtRecord elapsed hall
  let writtenBytes := F.length
  let b1 := snprintfWrite b.cursor b.remaining F b
  if 0 < writtenBytes then
    ({ b1 with
        cursor := b.cursor + writtenBytes
        remaining := u32sub b.remaining writtenBytes }, false)
  else (b1, true)

/-- Fold a list of `(elapsed, hall)` samples through `appendRecord`. -/
def applyAppends (samples : List (Nat × Nat)) (b : Batcher) : Batcher :=
  samples.foldl (fun st p => (appendRecord p.1 p.2 st).1) b

/-- `strlen(outputBuffer)`: length of the region's prefix before the first
NUL byte.  (If no NUL were present `strlen` would read past the array; the
model caps at the region, which suffices for every state considered here.) -/
def strlenRegion (r : List Char) : Nat := (r.takeWhile (fun c => c != nul)).length

/-- `resetOutputBuffer()` (`part_000` lines 142-146): cursor back to the start,
remaining capacity restored, `memset(&outputBuffer[0], 0, 1024)` — the memset
stores are logged like any other byte store. -/
def resetOutputBuffer (b : Batcher) : Batcher :=
  { b with
      cursor := 0
      remaining := BUFSZ
      region := List.replicate BUFSZ nul
      writes := ((List.range BUFSZ).map fun i => (i, nul)) ++ b.writes }

/-- The flush branch of the Batched `loop` (`part_000` lines 211-219):
`outputBuffer[strlen(outputBuffer) - 1] = '\0'` (index computed in 32-bit
`size_t` arithmetic), `writeAll(outputBuffer)` (transmits the C string up to
the first NUL), `resetOutputBuffer()`, `lastSendTimeMillis = millis()`.
Returns the transmitted bytes and the new state; `now` is the `millis()`
value (32-bit). -/
def flushStep (now : Nat) (b : Batcher) : List Char × Batcher :=
  let n := strlenRegion b.region
  let idx := (n + (U32 - 1)) % U32
  let b1 := storeChar idx nul b
  let sent := b1.region.takeWhile (fun c => c != nul)
  let b2 := resetOutputBuffer b1
  (sent, { b2 with lastSend := now })

/-- `millis() - lastSendTimeMillis > metricsSendFrequencyMs` (`part_000`
line 212): flush eligibility, 32-bit unsigned arithmetic,
`metricsSendFrequencyMs = 1000`. -/
def shouldFlush (now : Nat) (b : Batcher) : Bool :=
  1000 < u32sub (now % U32) (b.lastSend % U32)

/-- The elapsed-time argument the Batched and Simple variants pass to the
formatter: `millis() - elapsedStartMillis` in 32-bit unsigned arithmetic
(`part_000` line 198, `main.cpp` line 174).  Both arguments are the stored
32-bit values. -/
def elapsedArg (nowMillis start : Nat) : Nat := u32sub nowMillis start

/-! ## Per-sample transmission in the Simple and Extended variants -/

/-- `int category = 1` (`main.cpp` line 129, `nrf52_with_hall.ino` line 119). -/
def category : Int := 1

/-- Simple variant (`main.cpp` lines 168-176): `sprintf(outputBuf,
"%i:%lu:%lu", category, millis() - elapsedStartMillis, hallValue)` into a
64-byte stack buffer, then `writeAll(outputBuf)` transmits the C string —
exactly the formatted text. -/
def simpleSampleMsg (elapsed hall : Nat) : List Char :=
  intToChars category ++ ':' :: (natToChars (elapsed % U32) ++ ':' :: natToChars (hall % U32))

/-- Messages the Simple variant's sampling section transmits in one tick. -/
def simpleSampleSection (rec : RecState) (elapsed hall : Nat) : List (List Char) :=
  match rec with
  | .recording => [simpleSampleMsg elapsed hall]
  | .stopped => []

/-- Extended variant formatted text (`nrf52_with_hall.ino` line 161):
`sprintf(buffer, "%i:%i:%i", category, millis() - elapsedStartMillis,
hallValue)` — the unsigned elapsed value is consumed by a `"%i"` conversion,
i.e. reinterpreted as a signed 32-bit `int`; `hallValue` is an `int`. -/
def extSampleMsg (elapsed hall : Nat) : List Char :=
  intToChars category ++
    ':' :: (intToChars (toSigned32 elapsed) ++ ':' :: intToChars (toSigned32 hall))

/-- Extended variant wire frame (`nrf52_with_hall.ino` line 162):
`bleuart.write(buffer, sizeof(buffer))` transmits the whole 32-byte stack
buffer — the formatted text, its NUL terminator, and whatever the rest of the
uninitialised stack buffer (`stack`) held. -/
def extSampleFrame (elapsed hall : Nat) (stack : List Char) : List Char :=
  let m := extSampleMsg elapsed hall ++ [nul]
  (m ++ stack.drop m.length).take 32

/-- Messages the Extended variant's sampling section transmits in one tick. -/
def extSampleSection (rec : RecState) (elapsed hall : Nat) (stack : List Char) :
    List (List Char) :=
  match rec with
  | .recording => [extSampleFrame elapsed hall stack]
  | .stopped => []

/-! ## Analysis helpers -/

/-- Byte of the modelled `outputBuffer` region at offset `i` (`nul` past the end). -/
def byteAt (b : Batcher) (i : Nat) : Char := b.region.getD i nul

/-- Well-formed fill level `c`: cursor at `c`, remaining capacity `BUFSZ - c`,
region of full length and all-NUL from offset `c` on. -/
def goodAt (c : Nat) (b : Batcher) : Prop :=
  b.cursor = c ∧ b.remaining = BUFSZ - c ∧ b.region.length = BUFSZ ∧
    ∀ i, c ≤ i → byteAt b i = nul

/-- Frame buffer after 170 appends of the record `"1:0:5;"` from power-on:
fill level 1020, remaining capacity 4. -/
def overflowPrefix : Batcher := applyAppends (List.replicate 170 (0, 5)) initialBatcher

/-- `overflowPrefix` after appending the record `"1:200:7;"` (length 8, which
does not fit in the remaining 4 bytes). -/
def overflowState : Batcher := (appendRecord 200 7 overflowPrefix).1

/-! ## Basic lemmas about the embedded operations -/

theorem fmtRecord_cons (e h : Nat) :
    fmtRecord e h =
      '1' :: ':' :: (natToChars e ++ ':' :: (natToChars h ++ [';'])) := by
  have hm : intToChars metricTypeCode = ['1'] := by decide
  simp [fmtRecord, hm]

theorem fmtRecord_length_pos (e h : Nat) : 0 < (fmtRecord e h).length := by
  rw [fmtRecord_cons]; simp

theorem appendRecord_eq (e h : Nat) (b : Batcher) :
    appendRecord e h b =
      ({ snprintfWrite b.cursor b.remaining (fmtRecord e h) b with
          cursor := b.cursor + (fmtRecord e h).length
          remaining := u32sub b.remaining (fmtRecord e h).length }, false) := by
  rw [appendRecord]
  simp [fmtRecord_length_pos]

/-- The diagnostic-and-`exit(1)` branch of the append step never runs:
`snprintf` returns the untruncated length of the record, which is positive
even when the record did not fit. -/
theorem appendRecord_exit_unreachable (e h : Nat) (b : Batcher) :
    (appendRecord e h b).2 = false := by
  rw [appendRecord_eq]

theorem storeList_cursor (cs : List Char) (base : Nat) (b : Batcher) :
    (storeList base cs b).cursor = b.cursor := by
  induction cs generalizing base b with
  | nil => rfl
  | cons c rest ih => simp [storeList, ih, storeChar]

theorem storeList_remaining (cs : List Char) (base : Nat) (b : Batcher) :
    (storeList base cs b).remaining = b.remaining := by
  induction cs generalizing base b with
  | nil => rfl
  | cons c rest ih => simp [storeList, ih, storeChar]

theorem storeList_lastSend (cs : List Char) (base : Nat) (b : Batcher) :
    (storeList base cs b).lastSend = b.lastSend := by
  induction cs generalizing base b with
  | nil => rfl
  | cons c rest ih => simp [storeList, ih, storeChar]

theorem storeList_region_length (cs : List Char) (base : Nat) (b : Batcher) :
    (storeList base cs b).region.length = b.region.length := by
  induction cs generalizing base b with
  | nil => rfl
  | cons c rest ih => simp [storeList, ih, storeChar]

theorem byteAt_storeChar_ne (i j : Nat) (c : Char) (b : Batcher) (hij : i ≠ j) :
    byteAt (storeChar i c b) j = byteAt b j := by
  simp [byteAt, storeChar, List.getD_eq_getElem?_getD, List.getElem?_set_ne hij]

theorem byteAt_storeChar_self (i : Nat) (c : Char) (b : Batcher)
    (hi : i < b.region.length) :
    byteAt (storeChar i c b) i = c := by
  simp [byteAt, storeChar, List.getD_eq_getElem?_getD, List.getElem?_set_self hi]

theorem byteAt_storeList_lt (cs : List Char) (base j : Nat) (b : Batcher)
    (hj : j < base) :
    byteAt (storeList base cs b) j = byteAt b j := by
  induction cs generalizing base b with
  | nil => rfl
  | cons c rest ih =>
      rw [storeList, ih (base + 1) _ (by omega), byteAt_storeChar_ne _ _ _ _ (by omega)]

theorem byteAt_storeList_ge (cs : List Char) (base j : Nat) (b : Batcher)
    (hj : base + cs.length ≤ j) :
    byteAt (storeList base cs b) j = byteAt b j := by
  induction cs generalizing base b with
  | nil => rfl
  | cons c rest ih =>
      rw [storeList, ih (base + 1) _ (by simp at hj ⊢; omega),
        byteAt_storeChar_ne _ _ _ _ (by simp at hj; omega)]

theorem byteAt_storeList_get (cs : List Char) (base j : Nat) (b : Batcher)
    (hj : j < cs.length) (hlen : base + j < b.region.length) :
    byteAt (storeList base cs b) (base + j) = cs.getD j nul := by
  induction cs generalizing base j b with
  | nil => simp at hj
  | cons c rest ih =>
      cases j with
      | zero =>
          rw [storeList, byteAt_storeList_lt _ _ _ _ (by omega)]
          simpa using byteAt_storeChar_self base c b (by simpa using hlen)
      | succ j =>
          rw [storeList]
          have hlen' : (base + 1) + j < (storeChar base c b).region.length := by
            simp [storeChar]; omega
          have := ih (base + 1) j (storeChar base c b) (by simpa using hj) hlen'
          rw [show base + (j + 1) = (base + 1) + j by omega, this]
          rfl

theorem mem_writes_storeChar (i : Nat) (c : Char) (b : Batcher)
    (w : Nat × Char) (hw : w ∈ b.writes) :
    w ∈ (storeChar i c b).writes := by
  simp [storeChar]; right; exact hw

theorem mem_writes_storeList (cs : List Char) (base : Nat) (b : Batcher)
    (w : Nat × Char) (hw : w ∈ b.writes) :
    w ∈ (storeList base cs b).writes := by
  induction cs generalizing base b with
  | nil => exact hw
  | cons c rest ih => exact ih (base + 1) _ (mem_writes_storeChar _ _ _ _ hw)

theorem mem_writes_storeList_head (c : Char) (rest : List Char) (base : Nat)
    (b : Batcher) :
    (base, c) ∈ (storeList base (c :: rest) b).writes := by
  rw [storeList]
  exact mem_writes_storeList _ _ _ _ (by simp [storeChar])

theorem u32sub_of_le (a k : Nat) (hk : k ≤ a) (ha : a < U32) :
    u32sub a k = a - k := by
  simp only [u32sub, U32] at *
  omega

theorem snprintfWrite_region_length (dst size : Nat) (F : List Char) (b : Batcher) :
    (snprintfWrite dst size F b).region.length = b.region.length := by
  rw [snprintfWrite]
  split
  · rfl
  · simp [storeChar, List.length_set, storeList_region_length]

theorem append605_good {c : Nat} {b : Batcher} (hb : goodAt c b) (hc : c ≤ 1017) :
    goodAt (c + 6) (appendRecord 0 5 b).1 := by
  obtain ⟨hcur, hrem, hlen, hzero⟩ := hb
  have hBUF : BUFSZ = 1024 := rfl
  have hFlen : (fmtRecord 0 5).length = 6 := by decide
  have hszpos : ¬ b.remaining = 0 := by rw [hrem, hBUF]; omega
  have hk : min (fmtRecord 0 5).length (b.remaining - 1) = 6 := by
    rw [hFlen, hrem, hBUF]; omega
  have htklen : ((fmtRecord 0 5).take 6).length = 6 := by decide
  rw [appendRecord_eq]
  refine ⟨?_, ?_, ?_, ?_⟩
  · show b.cursor + (fmtRecord 0 5).length = c + 6
    rw [hcur, hFlen]
  · show u32sub b.remaining (fmtRecord 0 5).length = BUFSZ - (c + 6)
    rw [hFlen, hrem, hBUF, u32sub_of_le _ _ (by omega) (by simp only [U32]; omega)]
    omega
  · show (snprintfWrite b.cursor b.remaining (fmtRecord 0 5) b).region.length = BUFSZ
    rw [snprintfWrite_region_length, hlen]
  · intro i hi
    show byteAt (snprintfWrite b.cursor b.remaining (fmtRecord 0 5) b) i = nul
    simp only [snprintfWrite, if_neg hszpos, hk]
    rcases Nat.eq_or_lt_of_le hi with heq | hlt
    · have hidx : b.cursor + 6 = i := by omega
      rw [hidx]
      apply byteAt_storeChar_self
      rw [storeList_region_length, hlen, hBUF]
      omega
    · rw [byteAt_storeChar_ne _ _ _ _ (by omega)]
      rw [byteAt_storeList_ge _ _ _ _ (by rw [htklen]; omega)]
      exact hzero i (by omega)

theorem goodAt_applyAppends_replicate :
    ∀ n, n ≤ 170 →
      goodAt (6 * n) (applyAppends (List.replicate n (0, 5)) initialBatcher) := by
  intro n
  induction n with
  | zero =>
      intro _
      refine ⟨rfl, rfl, ?_, ?_⟩
      · show (List.replicate BUFSZ nul).length = BUFSZ
        rw [List.length_replicate]
      intro i _
      simp [applyAppends, byteAt, initialBatcher, List.getD_eq_getElem?_getD,
        List.getElem?_replicate, apply_ite (fun o => Option.getD o nul)]
  | succ n ih =>
      intro hn
      have hstep : applyAppends (List.replicate (n + 1) (0, 5)) initialBatcher
          = (appendRecord 0 5 (applyAppends (List.replicate n (0, 5)) initialBatcher)).1 := by
        simp [applyAppends, List.replicate_succ', List.foldl_append]
      rw [hstep, show 6 * (n + 1) = 6 * n + 6 by ring]
      exact append605_good (ih (by omega)) (by omega)

theorem goodAt_overflowPrefix : goodAt 1020 overflowPrefix := by
  have h := goodAt_applyAppends_replicate 170 (by omega)
  simpa [overflowPrefix] using h

theorem overflowPrefix_remaining : overflowPrefix.remaining = 4 :=
  goodAt_overflowPrefix.2.1

theorem overflowPrefix_byte1020 : byteAt overflowPrefix 1020 = nul :=
  goodAt_overflowPrefix.2.2.2 1020 (by omega)

theorem overflowState_facts :
    overflowState.cursor = 1028 ∧ overflowState.remaining = 4294967292 ∧
      byteAt overflowState 1020 = '1' := by
  obtain ⟨hcur, hrem, hlen, hzero⟩ := goodAt_overflowPrefix
  have hFlen : (fmtRecord 200 7).length = 8 := by decide
  have hrem4 : overflowPrefix.remaining = 4 := hrem
  have hszpos : ¬ overflowPrefix.remaining = 0 := by rw [hrem4]; omega
  have hk : min (fmtRecord 200 7).length (overflowPrefix.remaining - 1) = 3 := by
    rw [hFlen, hrem4]
    omega
  have htake : (fmtRecord 200 7).take 3 = ['1', ':', '2'] := by decide
  refine ⟨?_, ?_, ?_⟩
  · show ((appendRecord 200 7 overflowPrefix).1).cursor = 1028
    rw [appendRecord_eq]
    show overflowPrefix.cursor + (fmtRecord 200 7).length = 1028
    rw [hcur, hFlen]
  · show ((appendRecord 200 7 overflowPrefix).1).remaining = 4294967292
    rw [appendRecord_eq]
    show u32sub overflowPrefix.remaining (fmtRecord 200 7).length = 4294967292
    rw [hrem4, hFlen]
    decide
  · show byteAt ((appendRecord 200 7 overflowPrefix).1) 1020 = '1'
    rw [appendRecord_eq]
    show byteAt
      (snprintfWrite overflowPrefix.cursor overflowPrefix.remaining
        (fmtRecord 200 7) overflowPrefix) 1020 = '1'
    simp only [snprintfWrite, if_neg hszpos, hk, htake]
    rw [hcur]
    rw [byteAt_storeChar_ne _ _ _ _ (by omega)]
    have hget := byteAt_storeList_get ['1', ':', '2'] 1020 0 overflowPrefix
      (by simp) (by rw [hlen]; omega)
    simpa using hget

theorem mem_writes_appendRecord (e h : Nat) (b : Batcher) (hrem : 1 < b.remaining) :
    (b.cursor, '1') ∈ (appendRecord e h b).1.writes := by
  rw [appendRecord_eq]
  show (b.cursor, '1') ∈ (snprintfWrite b.cursor b.remaining (fmtRecord e h) b).writes
  have hF := fmtRecord_cons e h
  have hlen2 : 2 ≤ (fmtRecord e h).length := by rw [hF]; simp
  have hkpos : 1 ≤ min (fmtRecord e h).length (b.remaining - 1) := by omega
  obtain ⟨k, hk⟩ : ∃ k, min (fmtRecord e h).length (b.remaining - 1) = k + 1 :=
    ⟨_, (Nat.succ_pred_eq_of_pos hkpos).symm⟩
  simp only [snprintfWrite, if_neg (by omega : ¬ b.remaining = 0), hk]
  rw [hF, List.take_succ_cons]
  exact mem_writes_storeChar _ _ _ _ (mem_writes_storeList_head _ _ _ _)

/-- C1: in the Batched variant, when `append` is called with a record whose
formatted length (including the trailing `';'`) does not fit in the remaining
capacity of the 1024-byte frame buffer, the claimed behavior — buffer left
completely unchanged, diagnostic printed, process terminated — does not
occur.  Concretely: after 170 appends of `"1:0:5;"` the remaining capacity is
4; appending `"1:200:7;"` (length 8) takes the *success* branch (`snprintf`
returns the untruncated length 8, so `writtenBytes > 0` holds and `exit(1)`
is not reached) and writes a truncated prefix of the record into the buffer —
the byte at offset 1020 changes from NUL to `'1'`. -/
theorem c1_overflowing_append_modifies_buffer_and_does_not_exit :
    overflowPrefix.remaining < (fmtRecord 200 7).length ∧
      (appendRecord 200 7 overflowPrefix).2 = false ∧
      byteAt overflowPrefix 1020 = nul ∧
      byteAt (appendRecord 200 7 overflowPrefix).1 1020 = '1' := by
  refine ⟨?_, appendRecord_exit_unreachable 200 7 overflowPrefix,
    overflowPrefix_byte1020, ?_⟩
  · rw [overflowPrefix_remaining]
    decide
  · exact overflowState_facts.2.2

/-- C2: refuted — for the sequence of append calls consisting of 170 appends
of `"1:0:5;"`, then `"1:200:7;"`, then `"1:0:5;"`, the total bytes written
exceed the capacity: the final append stores a byte at offset 1028, outside
the 1024-byte frame buffer (`remainingSpace` underflowed to `2^32 - 4` at the
171st append, so `snprintf` no longer limits the write). -/
theorem c2_append_sequence_stores_past_capacity :
    (overflowState.cursor, '1') ∈ (appendRecord 0 5 overflowState).1.writes ∧
      overflowState.cursor = 1028 ∧ BUFSZ < overflowState.cursor := by
  refine ⟨mem_writes_appendRecord 0 5 overflowState ?_, overflowState_facts.1, ?_⟩
  · rw [overflowState_facts.2.1]
    omega
  · rw [overflowState_facts.1]
    decide

/-- C9: refuted — after the 171st append of the overflow trace (170 records
`"1:0:5;"` then one `"1:200:7;"` that does not fit), the write cursor is 1028
and the remaining-capacity counter has wrapped to `2^32 - 4`, so cursor plus
remaining equals `2^32 + 1024`, not the capacity 1024. -/
theorem c9_cursor_plus_remaining_differs_from_capacity :
    overflowState.cursor + overflowState.remaining ≠ BUFSZ := by
  rw [overflowState_facts.1, overflowState_facts.2.1]
  decide

/-- C4: in the Batched variant, `flush` on an empty frame buffer transmits
nothing and still advances `lastSendTimeMillis` — but it does NOT access only
bytes inside the frame buffer: `outputBuffer[strlen(outputBuffer) - 1]` with
`strlen = 0` stores a NUL at offset `(size_t)0 - 1 = 2^32 - 1`, far outside
the 1024-byte array (undefined behavior in the C source). -/
theorem c4_empty_flush_sends_nothing_but_stores_out_of_bounds :
    (flushStep 5000 initialBatcher).1 = [] ∧
      (flushStep 5000 initialBatcher).2.lastSend = 5000 ∧
      (U32 - 1, nul) ∈ (flushStep 5000 initialBatcher).2.writes ∧
      BUFSZ ≤ U32 - 1 := by
  decide

/-- C5: in the Batched variant, `flush` on a non-empty buffer strips exactly
the one trailing delimiter before transmission: appending the records
`"1:0:5;"` then `"1:200:7;"` into an empty buffer and flushing transmits
exactly `"1:0:5;1:200:7"`, then resets the frame buffer (cursor 0, remaining
capacity 1024, region zeroed) and sets the flush timer to the current time. -/
theorem c5_flush_strips_exactly_one_trailing_delimiter :
    fmtRecord 0 5 = "1:0:5;".toList ∧
      fmtRecord 200 7 = "1:200:7;".toList ∧
      (flushStep 2000 (appendRecord 200 7 (appendRecord 0 5 initialBatcher).1).1).1 =
        "1:0:5;1:200:7".toList ∧
      (flushStep 2000 (appendRecord 200 7 (appendRecord 0 5 initialBatcher).1).1).2.cursor = 0 ∧
      (flushStep 2000 (appendRecord 200 7 (appendRecord 0 5 initialBatcher).1).1).2.remaining =
        BUFSZ ∧
      (flushStep 2000 (appendRecord 200 7 (appendRecord 0 5 initialBatcher).1).1).2.region =
        List.replicate BUFSZ nul ∧
      (flushStep 2000 (appendRecord 200 7 (appendRecord 0 5 initialBatcher).1).1).2.lastSend =
        2000 := by
  decide

/-- C3: for every non-empty accumulated input text, in the Simple/Batched and
Extended variants alike: if the leading two characters decode to a valid
action code then the command-processing step performs exactly the matching
command's effect (Stop / Start, plus Name in the Extended variant, whose
payload is the input from offset 2); for any other leading pair nothing
actionable is decoded and the controller state is unchanged; and in every
case the accumulation buffer is cleared after the single decode attempt. -/
theorem c3_try_decode_dispatch_and_always_clears
    (now : Nat) (input : List Char) (s : SimpleCtrl) (e : ExtCtrl)
    (hne : 0 < input.length) :
    ((simpleCommandStep now input s).2 = [] ∧ (extCommandStep now input e).2 = []) ∧
      (tryDecodeSimple input = some .stop →
        (simpleCommandStep now input s).1 = { s with recState := .stopped }) ∧
      (tryDecodeSimple input = some .start →
        (simpleCommandStep now input s).1 =
          { s with recState := .recording, elapsedStart := now }) ∧
      (tryDecodeSimple input = none → (simpleCommandStep now input s).1 = s) ∧
      (tryDecodeExt input = some .stop →
        (extCommandStep now input e).1 = { e with recState := .stopped }) ∧
      (tryDecodeExt input = some .start →
        (extCommandStep now input e).1 =
          { e with recState := .recording, elapsedStart := now }) ∧
      (∀ p, tryDecodeExt input = some (.name p) →
        p = input.drop 2 ∧ (extCommandStep now input e).1 = { e with activity := p }) ∧
      (tryDecodeExt input = none → (extCommandStep now input e).1 = e) := by
  have hlen : ¬ input.length = 0 := by omega
  simp only [simpleCommandStep, extCommandStep, tryDecodeSimple, tryDecodeExt,
    if_pos hne, if_neg hlen]
  by_cases h0 : actionCode input = 0 <;>
    by_cases h1 : actionCode input = 1 <;>
      by_cases h2 : actionCode input = 2 <;>
        simp_all

/-- Witness for C3 at concrete inputs: `"48"` (code 0, Stop), `"49"` (code 1:
Start in Simple, Name in Extended), `"50"` (code 2, Start in Extended) and
`"zz"` (no valid code). -/
theorem c3_try_decode_dispatch_and_always_clears_witness :
    (simpleCommandStep 1000 "48".toList ⟨.recording, 5⟩).2 = [] ∧
      (extCommandStep 1000 "48".toList extInit).2 = [] ∧
      (simpleCommandStep 1000 "48".toList ⟨.recording, 5⟩).1 = ⟨.stopped, 5⟩ ∧
      (simpleCommandStep 1000 "49".toList ⟨.stopped, 5⟩).1 = ⟨.recording, 1000⟩ ∧
      (simpleCommandStep 1000 "zz".toList ⟨.stopped, 5⟩).1 = ⟨.stopped, 5⟩ ∧
      (extCommandStep 1000 "50".toList extInit).1 = ⟨.recording, 1000, "unnamed".toList⟩ ∧
      (extCommandStep 1000 "49abc".toList extInit).1 = ⟨.stopped, 0, "abc".toList⟩ ∧
      (extCommandStep 1000 "zz".toList extInit).1 = extInit := by
  refine ⟨(c3_try_decode_dispatch_and_always_clears 1000 _ ⟨.recording, 5⟩ extInit
      (by decide)).1.1,
    (c3_try_decode_dispatch_and_always_clears 1000 "48".toList ⟨.recording, 5⟩ extInit
      (by decide)).1.2,
    (c3_try_decode_dispatch_and_always_clears 1000 _ ⟨.recording, 5⟩ extInit
      (by decide)).2.1 (by decide),
    (c3_try_decode_dispatch_and_always_clears 1000 _ ⟨.stopped, 5⟩ extInit
      (by decide)).2.2.1 (by decide),
    (c3_try_decode_dispatch_and_always_clears 1000 "zz".toList ⟨.stopped, 5⟩ extInit
      (by decide)).2.2.2.1 (by decide),
    (c3_try_decode_dispatch_and_always_clears 1000 "50".toList ⟨.stopped, 5⟩ extInit
      (by decide)).2.2.2.2.2.1 (by decide),
    ((c3_try_decode_dispatch_and_always_clears 1000 "49abc".toList ⟨.stopped, 5⟩ extInit
      (by decide)).2.2.2.2.2.2.1 "abc".toList (by decide)).2,
    (c3_try_decode_dispatch_and_always_clears 1000 "zz".toList ⟨.stopped, 5⟩ extInit
      (by decide)).2.2.2.2.2.2.2 (by decide)⟩

/-- C6: in the Extended variant, when a Name command arrives (action code 1),
the inbound payload from offset 2 to the end of the input becomes the
session's activity name, and the recording state and elapsed-time origin are
untouched. -/
theorem c6_name_payload_becomes_activity
    (now : Nat) (input : List Char) (e : ExtCtrl)
    (hne : 0 < input.length) (hcode : actionCode input = 1) :
    (extCommandStep now input e).1.activity = input.drop 2 ∧
      (extCommandStep now input e).1.recState = e.recState ∧
      (extCommandStep now input e).1.elapsedStart = e.elapsedStart := by
  simp [extCommandStep, if_pos hne, hcode]

/-- Witness for C6: input `"49corner x"` (code 1, payload `"corner x"`)
replaces the default activity name `"unnamed"`. -/
theorem c6_name_payload_becomes_activity_witness :
    (extCommandStep 1000 "49corner x".toList extInit).1.activity = "corner x".toList ∧
      (extCommandStep 1000 "49corner x".toList extInit).1.recState = RecState.stopped := by
  have h := c6_name_payload_becomes_activity 1000 "49corner x".toList extInit
    (by decide) (by decide)
  exact ⟨h.1.trans (by decide), h.2.1⟩

/-- C7: for every prior controller state, applying Start (action code 1 in
Simple/Batched, 2 in Extended) sets the recording state to Recording and the
elapsed-time origin to the current time — even when already Recording, the
origin is re-armed, as the unconditional full-state characterisation shows;
applying Stop when already Stopped leaves the controller state unchanged. -/
theorem c7_start_rearms_and_stop_when_stopped_is_noop
    (now : Nat) (input : List Char) (s : SimpleCtrl) (e : ExtCtrl)
    (hne : 0 < input.length) :
    (actionCode input = 1 →
      (simpleCommandStep now input s).1 =
        { s with recState := .recording, elapsedStart := now }) ∧
      (actionCode input = 0 → s.recState = .stopped →
        (simpleCommandStep now input s).1 = s) ∧
      (actionCode input = 2 →
        (extCommandStep now input e).1 =
          { e with recState := .recording, elapsedStart := now }) ∧
      (actionCode input = 0 → e.recState = .stopped →
        (extCommandStep now input e).1 = e) := by
  refine ⟨?_, ?_, ?_, ?_⟩
  · intro hc
    simp [simpleCommandStep, if_pos hne, hc]
  · intro hc hs
    cases s
    simp_all [simpleCommandStep, if_pos hne, hc]
  · intro hc
    simp [extCommandStep, if_pos hne, hc]
  · intro hc hs
    cases e
    simp_all [extCommandStep, if_pos hne, hc]

/-- Witness for C7: Start (`"49"`) while already Recording re-arms the origin
from 5 to 1000; Stop (`"48"`) while Stopped leaves the state unchanged; the
Extended Start (`"50"`) likewise re-arms. -/
theorem c7_start_rearms_and_stop_when_stopped_is_noop_witness :
    (simpleCommandStep 1000 "49".toList ⟨.recording, 5⟩).1 = ⟨.recording, 1000⟩ ∧
      (simpleCommandStep 1000 "48".toList ⟨.stopped, 7⟩).1 = ⟨.stopped, 7⟩ ∧
      (extCommandStep 1000 "50".toList ⟨.recording, 5, "x".toList⟩).1 =
        ⟨.recording, 1000, "x".toList⟩ ∧
      (extCommandStep 1000 "48".toList extInit).1 = extInit := by
  refine ⟨(c7_start_rearms_and_stop_when_stopped_is_noop 1000 _ ⟨.recording, 5⟩ extInit
      (by decide)).1 (by decide),
    (c7_start_rearms_and_stop_when_stopped_is_noop 1000 "48".toList ⟨.stopped, 7⟩ extInit
      (by decide)).2.1 (by decide) rfl,
    (c7_start_rearms_and_stop_when_stopped_is_noop 1000 "50".toList ⟨.stopped, 7⟩
      ⟨.recording, 5, "x".toList⟩ (by decide)).2.2.1 (by decide),
    (c7_start_rearms_and_stop_when_stopped_is_noop 1000 "48".toList ⟨.stopped, 7⟩ extInit
      (by decide)).2.2.2 (by decide) rfl⟩

/-- C10: the elapsed value passed to the formatter, `millis() -
elapsedStartMillis` in 32-bit unsigned arithmetic, equals the true elapsed
time reduced modulo `2^32`; in particular it is exact whenever the true
elapsed time is below `2^32` ms, even if the millisecond clock wrapped since
power-on. `t0`/`t1` are the true origin/current times; the stored values are
their reductions mod `2^32`. -/
theorem c10_elapsed_is_32bit_modular_difference (t0 t1 : Nat) (hle : t0 ≤ t1) :
    elapsedArg (t1 % U32) (t0 % U32) = (t1 - t0) % U32 ∧
      (t1 - t0 < U32 → elapsedArg (t1 % U32) (t0 % U32) = t1 - t0) := by
  simp only [elapsedArg, u32sub, U32]
  omega

/-- Witness for C10 with a wrapped clock: true origin `2^32 - 100`, true
current time `2^32 + 100`; the stored 32-bit values are `2^32 - 100` and
`100`, and the computed elapsed time is exactly 200. -/
theorem c10_elapsed_is_32bit_modular_difference_witness :
    elapsedArg (4294967396 % U32) (4294967196 % U32) =
        (4294967396 - 4294967196) % U32 ∧
      elapsedArg (4294967396 % U32) (4294967196 % U32) = 200 := by
  refine ⟨(c10_elapsed_is_32bit_modular_difference 4294967196 4294967396 (by omega)).1, ?_⟩
  have h := (c10_elapsed_is_32bit_modular_difference 4294967196 4294967396 (by omega)).2
    (by decide)
  simpa using h

theorem natToCharsAux_length_le (fuel : Nat) :
    ∀ n acc k, n < fuel → 1 ≤ k → n < 10 ^ k →
      (natToCharsAux fuel n acc).length ≤ k + acc.length := by
  induction fuel with
  | zero => intro n acc k hn _ _; omega
  | succ fuel ih =>
      intro n acc k hn hk hnk
      rw [natToCharsAux]
      split
      · simp
        omega
      · rename_i hge
        have h10 : 10 ≤ n := by omega
        have hk2 : 2 ≤ k := by
          rcases Nat.lt_or_ge k 2 with hcon | hok
          · have hk1 : k = 1 := by omega
            rw [hk1] at hnk
            norm_num at hnk
            omega
          · exact hok
        have hdiv : n / 10 < 10 ^ (k - 1) := by
          rw [Nat.div_lt_iff_lt_mul (by norm_num)]
          calc n < 10 ^ k := hnk
          _ = 10 ^ (k - 1) * 10 := by
                rw [← pow_succ]
                congr 1
                omega
        have hfuel : n / 10 < fuel := by
          have : n / 10 < n := Nat.div_lt_self (by omega) (by norm_num)
          omega
        have := ih (n / 10) (digitChar (n % 10) :: acc) (k - 1) hfuel (by omega) hdiv
        simp at this
        omega

theorem natToChars_length_le (n k : Nat) (hk : 1 ≤ k) (hn : n < 10 ^ k) :
    (natToChars n).length ≤ k := by
  have h := natToCharsAux_length_le (n + 1) n [] k (by omega) hk hn
  simpa using h

theorem intToChars_toSigned32_length_le (n : Nat) :
    (intToChars (toSigned32 n)).length ≤ 11 := by
  have hpow : (10 : Nat) ^ 10 = 10000000000 := by norm_num
  have hmlt : n % U32 < U32 := Nat.mod_lt _ (by rw [U32]; omega)
  rw [toSigned32]
  split
  · rename_i hlt
    rw [intToChars, if_neg (by omega)]
    have habs : ((n % U32 : Nat) : Int).natAbs = n % U32 := by omega
    rw [habs]
    have := natToChars_length_le (n % U32) 10 (by omega)
      (by rw [hpow]; rw [U32] at hmlt; omega)
    omega
  · rename_i hge
    have hneg : ((n % U32 : Nat) : Int) - ((U32 : Nat) : Int) < 0 := by omega
    rw [intToChars, if_pos hneg]
    have habs : (((n % U32 : Nat) : Int) - ((U32 : Nat) : Int)).natAbs = U32 - n % U32 := by
      omega
    rw [List.length_cons, habs]
    have hlt31 : U32 - n % U32 ≤ 2147483648 := by
      rw [U32] at *
      omega
    have := natToChars_length_le (U32 - n % U32) 10 (by omega) (by rw [hpow]; omega)
    omega

theorem extSampleMsg_length_le (elapsed hall : Nat) :
    (extSampleMsg elapsed hall).length ≤ 25 := by
  have h1 : (intToChars category).length = 1 := by decide
  have h2 := intToChars_toSigned32_length_le elapsed
  have h3 := intToChars_toSigned32_length_le hall
  rw [extSampleMsg]
  simp only [List.length_append, List.length_cons, h1]
  omega

/-- C8 counterexample: in the Extended variant the bytes transmitted for the
sample `(elapsed 200, value 42)` are not exactly the formatted text
`"1:200:42"` — `bleuart.write(buffer, sizeof(buffer))` transmits the whole
32-byte stack buffer (here taken all-NUL), not the 8 text bytes. -/
theorem c8_extended_frame_is_not_exactly_the_text :
    extSampleSection .recording 200 42 (List.replicate 32 nul) ≠
      [extSampleMsg 200 42] := by
  decide

/-- C8 as amended: each tick while recording transmits exactly one message;
in the Simple variant its bytes are exactly the formatted text
`<code>:<elapsed>:<value>`, but in the Extended variant the single message is
the whole 32-byte stack buffer: the formatted text, its NUL terminator, then
the untouched remainder of the uninitialised buffer. -/
theorem c8_amended_per_tick_transmissions
    (elapsed hall : Nat) (stack : List Char) (hs : stack.length = 32) :
    simpleSampleSection .recording elapsed hall = [simpleSampleMsg elapsed hall] ∧
      simpleSampleSection .stopped elapsed hall = [] ∧
      extSampleSection .recording elapsed hall stack = [extSampleFrame elapsed hall stack] ∧
      extSampleSection .stopped elapsed hall stack = [] ∧
      (extSampleFrame elapsed hall stack).length = 32 ∧
      (extSampleFrame elapsed hall stack).take ((extSampleMsg elapsed hall).length + 1) =
        extSampleMsg elapsed hall ++ [nul] := by
  have hm : (extSampleMsg elapsed hall).length + 1 ≤ 32 := by
    have := extSampleMsg_length_le elapsed hall
    omega
  refine ⟨rfl, rfl, rfl, rfl, ?_, ?_⟩
  · simp only [extSampleFrame]
    simp [List.length_take, List.length_append, List.length_drop, hs]
    omega
  · simp only [extSampleFrame]
    rw [List.take_take, min_eq_left hm]
    rw [show (extSampleMsg elapsed hall).length + 1 =
      (extSampleMsg elapsed hall ++ [nul]).length from by simp]
    rw [List.take_append_of_le_length (le_refl _), List.take_length]

/-- Witness for the amended C8 at the sample `(200, 42)` with an arbitrary
32-byte stack content. -/
theorem c8_amended_per_tick_transmissions_witness :
    simpleSampleSection .recording 200 42 = [simpleSampleMsg 200 42] ∧
      (extSampleFrame 200 42 (List.replicate 32 'x')).length = 32 ∧
      (extSampleFrame 200 42 (List.replicate 32 'x')).take
          ((extSampleMsg 200 42).length + 1) = extSampleMsg 200 42 ++ [nul] := by
  have h := c8_amended_per_tick_transmissions 200 42 (List.replicate 32 'x') (by decide)
  exact ⟨h.1, h.2.2.2.2.1, h.2.2.2.2.2⟩
